import Mathlib

/- Shallow embedding of tune_params.py: graph-structured stochastic
   iterative hard thresholding (Sto-IHT, SVRG-IHT, SCSG-IHT).

   Conventions of the embedding:
   * numpy float64 values are modelled as rationals;
   * Euclidean-norm comparisons are carried out on squared norms, which is
     an exact translation: for a vector v and a threshold c, the condition
     np.linalg.norm(v) >= c with c > 0 is equivalent to normSq v ≥ c², and
     np.linalg.norm(v) <= c is equivalent to 0 ≤ c ∧ normSq v ≤ c²;
   * the process-wide numpy random generator is modelled by explicit
     streams of draws (one natural number per np.random.randint call);
   * the external C routine wrap_head_tail_bisearch (module sparse_module,
     out of scope per the spec) is abstracted as an arbitrary function
     returning the selected support;
   * the source runs under Python 2, where / on ints is floor division
     (under Python 3 the iteration counts would be floats and every
     range(...) call would raise TypeError); integer division is therefore
     embedded as Nat division. -/

namespace TuneParams

/-- Dot product of two rational vectors (np.dot on 1-d arrays). -/
def dotQ (a b : List ℚ) : ℚ := (List.zipWith (· * ·) a b).sum

/-- Matrix-vector product (np.dot of a 2-d and a 1-d array). -/
def matVec (A : List (List ℚ)) (v : List ℚ) : List ℚ := A.map (fun row => dotQ row v)

/-- Matrix transpose (np.transpose); missing entries default to 0. -/
def transposeMat (A : List (List ℚ)) : List (List ℚ) :=
  (List.range (A.headD []).length).map (fun j => A.map (fun row => row.getD j 0))

/-- Matrix-matrix product (np.dot of two 2-d arrays). -/
def matMul (A B : List (List ℚ)) : List (List ℚ) :=
  A.map (fun row => (transposeMat B).map (fun col => dotQ row col))

/-- Column selection A[:, block] by a list of column indices. -/
def selectCols (A : List (List ℚ)) (block : List ℕ) : List (List ℚ) :=
  A.map (fun row => block.map (fun j => row.getD j 0))

/-- Row selection A[block] by a list of row indices. -/
def selectRows (A : List (List ℚ)) (block : List ℕ) : List (List ℚ) :=
  block.map (fun i => A.getD i [])

/-- Entry selection v[block] by a list of indices. -/
def selectEntries (v : List ℚ) (block : List ℕ) : List ℚ := block.map (fun i => v.getD i 0)

/-- Elementwise vector subtraction. -/
def vsub (a b : List ℚ) : List ℚ := List.zipWith (· - ·) a b

/-- Elementwise vector addition. -/
def vadd (a b : List ℚ) : List ℚ := List.zipWith (· + ·) a b

/-- Scalar multiple of a vector. -/
def vscale (c : ℚ) (v : List ℚ) : List ℚ := v.map (fun a => c * a)

/-- Squared Euclidean norm: np.linalg.norm(v) squared. -/
def normSq (v : List ℚ) : ℚ := (v.map (fun a => a * a)).sum

/-- Python int() applied to a rational: truncation toward zero. -/
def pyInt (q : ℚ) : ℤ := if 0 ≤ q then ⌊q⌋ else -⌊-q⌋

/-- Type of the external projection oracle wrap_head_tail_bisearch:
arguments are edges, prizes, costs, g, root, s_low, s_high, max_num_iter,
verbose; the result is the selected support (re_nodes[0] in the source). -/
abbrev Oracle :=
  List (ℕ × ℕ) → List ℚ → List ℚ → ℤ → ℤ → ℤ → ℤ → ℕ → ℕ → List ℕ

/-- Wrapper of the head/tail projection (source lines 33-56): squares the
input into a prize vector, clamps the upper sparsity bound against
len(prizes) - 1, invokes the external oracle, and rebuilds the projected
vector, equal to x on the returned support and zero elsewhere. -/
def algo_head_tail_bisearch (oracle : Oracle) (edges : List (ℕ × ℕ)) (x : List ℚ)
    (costs : List ℚ) (g root s_low s_high : ℤ) (max_num_iter verbose : ℕ) :
    List ℕ × List ℚ :=
  let prizes := x.map (fun v => v * v)
  let s_high := if s_high ≥ (prizes.length : ℤ) - 1 then (prizes.length : ℤ) - 1 else s_high
  let re_nodes := oracle edges prizes costs g root s_low s_high max_num_iter verbose
  let proj_w := (List.range x.length).map (fun i => if i ∈ re_nodes then x.getD i 0 else 0)
  (re_nodes, proj_w)

/-- Batch sampler (source lines 429-437): partitions [0, n) into
n / batch_size contiguous blocks and returns the block of the drawn index.
The np.random.randint(0, num_batches) call is modelled by the draw
argument reduced modulo num_batches (for draws below num_batches, exactly
the drawn index); Python raises ValueError when num_batches = 0. -/
def get_batch (batch_size n draw : ℕ) : List ℕ :=
  let num_batches := n / batch_size
  let batch_idx := draw % num_batches
  List.range' (batch_size * batch_idx) batch_size

/-- Gradient of the squared-error loss restricted to a block of data
(source lines 415-426): -2 * (xty - xtx · x_hat) where xtx and xty are
built from the column-selected transpose and the row-selected matrix. -/
def calc_grad (x_mat : List (List ℚ)) (y_tr : List ℚ) (x_hat : List ℚ)
    (block : List ℕ) : List ℚ :=
  let x_tr_t := transposeMat x_mat
  let xtx := matMul (selectCols x_tr_t block) (selectRows x_mat block)
  let xty := matVec (selectCols x_tr_t block) (selectEntries y_tr block)
  vscale (-2) (vsub xty (matVec xtx x_hat))

/-- Observation counter (source lines 404-412): int(B / K) + b * t.
Python raises ZeroDivisionError when K = 0; Nat division returns 0 there,
and every theorem below that depends on this value carries hypotheses
keeping K positive. -/
def calc_num_observations (B b t K : ℕ) : ℕ := B / K + b * t

/-- Mutable state threaded through one optimizer run: the iterate, the two
counters, and the loss record. The second component of a loss entry stores
the squared residual norm (order-isomorphic to the residual norm stored by
the source). -/
structure AlgoState where
  x_hat : List ℚ
  num_epochs : ℕ
  num_iter : ℕ
  loss_list : List (ℕ × ℚ)
deriving DecidableEq

/-- Per-run context: the abstract oracle, the inner-draw stream (indexed
by the cumulative inner-iteration counter), and all run parameters fixed
before the epoch loop. -/
structure Ctx where
  oracle : Oracle
  rand : ℕ → ℕ
  x_mat : List (List ℚ)
  y_tr : List ℚ
  lr : ℚ
  edges : List (ℕ × ℕ)
  costs : List ℚ
  g : ℤ
  root : ℤ
  h_low : ℤ
  h_high : ℤ
  t_low : ℤ
  t_high : ℤ
  proj_max_num_iter : ℕ
  verbose : ℕ

/-- Head projection of a vector: the projected output of the wrapper at
the gradient sparsity budget (h_low, h_high). -/
def headProj (c : Ctx) (v : List ℚ) : List ℚ :=
  (algo_head_tail_bisearch c.oracle c.edges v c.costs c.g c.root c.h_low c.h_high
    c.proj_max_num_iter c.verbose).2

/-- Tail projection of a vector: the projected output of the wrapper at
the iterate sparsity budget (t_low, t_high). -/
def tailProj (c : Ctx) (v : List ℚ) : List ℚ :=
  (algo_head_tail_bisearch c.oracle c.edges v c.costs c.g c.root c.t_low c.t_high
    c.proj_max_num_iter c.verbose).2

/-- One inner iteration of Sto-IHT (source lines 213-224): draw a block,
take the block gradient at the current iterate, head-project it, step,
tail-project, and replace the iterate. -/
def sto_inner (c : Ctx) (B n : ℕ) (st : AlgoState) : AlgoState :=
  let block := get_batch B n (c.rand st.num_iter)
  let gradient := calc_grad c.x_mat c.y_tr st.x_hat block
  let proj_grad := headProj c gradient
  let bt := vsub st.x_hat (vscale c.lr proj_grad)
  let proj_bt := tailProj c bt
  { st with x_hat := proj_bt, num_iter := st.num_iter + 1 }

/-- One Sto-IHT epoch (source lines 211-224): increment the epoch counter
and run num_blocks = n / B inner iterations. -/
def sto_epoch (c : Ctx) (B n : ℕ) (st : AlgoState) : AlgoState :=
  (sto_inner c B n)^[n / B] { st with num_epochs := st.num_epochs + 1 }

/-- One variance-reduced inner iteration shared by SVRG-IHT (source lines
289-305, batch size 1) and SCSG-IHT (source lines 370-386, batch size b),
acting on the pair (x_nil, num_iter): draw a block, form the raw gradient
at x_nil, on epochs after the first correct it by the control variate
grad(x_nil) - grad(x_hat) + outer_grad, head-project, step, tail-project. -/
def vr_inner (c : Ctx) (bsz n epoch_i : ℕ) (x_hat outer_grad : List ℚ)
    (p : List ℚ × ℕ) : List ℚ × ℕ :=
  let x_nil := p.1
  let block := get_batch bsz n (c.rand p.2)
  let inner_grad_1 := calc_grad c.x_mat c.y_tr x_nil block
  let gradient :=
    if epoch_i < 1 then inner_grad_1
    else vadd (vsub inner_grad_1 (calc_grad c.x_mat c.y_tr x_hat block)) outer_grad
  let proj_grad := headProj c gradient
  let bt := vsub x_nil (vscale c.lr proj_grad)
  (tailProj c bt, p.2 + 1)

/-- One SVRG-IHT epoch (source lines 285-306): full-batch outer gradient
at the current iterate, snapshot x_nil, n / b inner iterations (with b
shadowed to 1 by the caller), then x_hat := x_nil. -/
def svrg_epoch (c : Ctx) (b n : ℕ) (st : AlgoState) : AlgoState :=
  let epoch_i := st.num_epochs
  let outer_grad := calc_grad c.x_mat c.y_tr st.x_hat (List.range n)
  let q := (vr_inner c b n epoch_i st.x_hat outer_grad)^[n / b] (st.x_hat, st.num_iter)
  { x_hat := q.1, num_epochs := st.num_epochs + 1, num_iter := q.2,
    loss_list := st.loss_list }

/-- One SCSG-IHT epoch (source lines 365-387): draw one block of size B,
compute the outer gradient from that block only, snapshot x_nil, B / b
inner iterations (Option 2 scheduling), then x_hat := x_nil. The outer
draw stream randO is indexed by the epoch index. -/
def scsg_epoch (c : Ctx) (randO : ℕ → ℕ) (B b n : ℕ) (st : AlgoState) : AlgoState :=
  let epoch_i := st.num_epochs
  let block := get_batch B n (randO epoch_i)
  let outer_grad := calc_grad c.x_mat c.y_tr st.x_hat block
  let q := (vr_inner c b n epoch_i st.x_hat outer_grad)^[B / b] (st.x_hat, st.num_iter)
  { x_hat := q.1, num_epochs := st.num_epochs + 1, num_iter := q.2,
    loss_list := st.loss_list }

/-- Epoch loop shared by the three optimizers (source lines 211-236,
285-317, 365-398): run the epoch body, then at epoch end break on
divergence (norm(x_hat) >= 1e5, i.e. normSq ≥ 1e10) or convergence
(residual norm ≤ tol, i.e. 0 ≤ tol ∧ squared residual ≤ tol²), otherwise
append (num_obs, residual) to the loss record and continue. -/
def run_aux (ep : AlgoState → AlgoState) (obs : ℕ → ℕ) (x_mat : List (List ℚ))
    (y_tr : List ℚ) (tol : ℚ) : ℕ → AlgoState → AlgoState
  | 0, st => st
  | Nat.succ k, st =>
    let st1 := ep st
    let residualSq := normSq (vsub y_tr (matVec x_mat st1.x_hat))
    if (10 : ℚ) ^ 10 ≤ normSq st1.x_hat then st1
    else if 0 ≤ tol ∧ residualSq ≤ tol ^ 2 then st1
    else run_aux ep obs x_mat y_tr tol k
      { st1 with loss_list := st1.loss_list ++ [(obs st1.num_iter, residualSq)] }

/-- Graph Stochastic IHT (source lines 169-239). The x_star and b
arguments are accepted and unused, as in the source (x_star only feeds
the returned error norm and the prints, which are not part of the loop
state). -/
def algo_graph_sto_iht (oracle : Oracle) (rand : ℕ → ℕ) (x_mat : List (List ℚ))
    (y_tr : List ℚ) (max_epochs : ℕ) (lr : ℚ) (x_star x0 : List ℚ) (tol_algo : ℚ)
    (edges : List (ℕ × ℕ)) (costs : List ℚ) (s B b : ℕ) (g root : ℤ) (gamma : ℚ)
    (proj_max_num_iter verbose : ℕ) : AlgoState :=
  let h_low : ℤ := (x0.length / 2 : ℕ)
  let h_high : ℤ := pyInt ((h_low : ℚ) * (1 + gamma))
  let t_low : ℤ := (s : ℤ)
  let t_high : ℤ := pyInt ((s : ℚ) * (1 + gamma))
  let n := x_mat.length
  let B := if n < B then n else B
  let c : Ctx := ⟨oracle, rand, x_mat, y_tr, lr, edges, costs, g, root,
    h_low, h_high, t_low, t_high, proj_max_num_iter, verbose⟩
  run_aux (sto_epoch c B n) (fun t => calc_num_observations 0 B t (n / B))
    x_mat y_tr tol_algo max_epochs ⟨x0, 0, 0, []⟩

/-- Graph SVRG-IHT (source lines 242-320). Both B and b are accepted and
unused: the source reassigns b = 1 before the loop (inner gradient always
based on a single data point) and never reads B. -/
def algo_graph_svrg_iht (oracle : Oracle) (rand : ℕ → ℕ) (x_mat : List (List ℚ))
    (y_tr : List ℚ) (max_epochs : ℕ) (lr : ℚ) (x_star x0 : List ℚ) (tol_algo : ℚ)
    (edges : List (ℕ × ℕ)) (costs : List ℚ) (s B b : ℕ) (g root : ℤ) (gamma : ℚ)
    (proj_max_num_iter verbose : ℕ) : AlgoState :=
  let h_low : ℤ := (x0.length / 2 : ℕ)
  let h_high : ℤ := pyInt ((h_low : ℚ) * (1 + gamma))
  let t_low : ℤ := (s : ℤ)
  let t_high : ℤ := pyInt ((s : ℚ) * (1 + gamma))
  let n := x_mat.length
  let b := 1
  let c : Ctx := ⟨oracle, rand, x_mat, y_tr, lr, edges, costs, g, root,
    h_low, h_high, t_low, t_high, proj_max_num_iter, verbose⟩
  run_aux (svrg_epoch c b n) (fun t => calc_num_observations n b t (n / b))
    x_mat y_tr tol_algo max_epochs ⟨x0, 0, 0, []⟩

/-- Graph SCSG-IHT (source lines 323-401). -/
def algo_graph_scsg_iht (oracle : Oracle) (rand randO : ℕ → ℕ) (x_mat : List (List ℚ))
    (y_tr : List ℚ) (max_epochs : ℕ) (lr : ℚ) (x_star x0 : List ℚ) (tol_algo : ℚ)
    (edges : List (ℕ × ℕ)) (costs : List ℚ) (s B b : ℕ) (g root : ℤ) (gamma : ℚ)
    (proj_max_num_iter verbose : ℕ) : AlgoState :=
  let h_low : ℤ := (x0.length / 2 : ℕ)
  let h_high : ℤ := pyInt ((h_low : ℚ) * (1 + gamma))
  let t_low : ℤ := (s : ℤ)
  let t_high : ℤ := pyInt ((s : ℚ) * (1 + gamma))
  let n := x_mat.length
  let B := if n < B then n else B
  let c : Ctx := ⟨oracle, rand, x_mat, y_tr, lr, edges, costs, g, root,
    h_low, h_high, t_low, t_high, proj_max_num_iter, verbose⟩
  run_aux (scsg_epoch c randO B b n) (fun t => calc_num_observations B b t (B / b))
    x_mat y_tr tol_algo max_epochs ⟨x0, 0, 0, []⟩

/-- Terminal condition checked at epoch end by every variant: the iterate
norm reached the blow-up threshold 1e5 (squared: 1e10) or the residual
norm is at or below the tolerance. -/
def terminal (x_mat : List (List ℚ)) (y_tr : List ℚ) (tol : ℚ) (x : List ℚ) : Prop :=
  (10 : ℚ) ^ 10 ≤ normSq x ∨
    (0 ≤ tol ∧ normSq (vsub y_tr (matVec x_mat x)) ≤ tol ^ 2)

/-- Written from the spec and claim text for Sto-IHT (refinement target):
one epoch performs ⌊n/B⌋ inner iterations, each of which draws one block,
computes the block gradient at the current x_hat, head-projects the
gradient, takes a gradient step of size lr, tail-projects the result, and
replaces x_hat with the tail-projected vector. -/
def sto_epoch_from_spec (c : Ctx) (B n : ℕ) (st : AlgoState) : AlgoState :=
  (fun s : AlgoState =>
    let block := get_batch B n (c.rand s.num_iter)
    let gradient := calc_grad c.x_mat c.y_tr s.x_hat block
    { s with x_hat := tailProj c (vsub s.x_hat (vscale c.lr (headProj c gradient))),
             num_iter := s.num_iter + 1 })^[n / B]
    { st with num_epochs := st.num_epochs + 1 }

/-- Written from the spec and claim text for SVRG-IHT (refinement
target): once per epoch compute the full-batch outer gradient over all n
samples at the current iterate, snapshot x_nil = x_hat, then run exactly
n inner iterations; each draws a single-sample block, and the gradient is
the raw single-sample gradient at x_nil on epoch index 0, and
grad(x_nil, block) - grad(x_hat, block) + outer_grad afterwards. -/
def svrg_epoch_from_spec (c : Ctx) (n : ℕ) (st : AlgoState) : AlgoState :=
  let epoch_i := st.num_epochs
  let outer_grad := calc_grad c.x_mat c.y_tr st.x_hat (List.range n)
  let q := (fun p : List ℚ × ℕ =>
    let block := get_batch 1 n (c.rand p.2)
    let raw := calc_grad c.x_mat c.y_tr p.1 block
    let gradient :=
      if epoch_i = 0 then raw
      else vadd (vsub raw (calc_grad c.x_mat c.y_tr st.x_hat block)) outer_grad
    (tailProj c (vsub p.1 (vscale c.lr (headProj c gradient))), p.2 + 1))^[n]
    (st.x_hat, st.num_iter)
  { x_hat := q.1, num_epochs := st.num_epochs + 1, num_iter := q.2,
    loss_list := st.loss_list }

/-- Written from the spec and claim text for SCSG-IHT (refinement
target): once per epoch draw exactly one block of size B and compute the
outer anchor gradient from that block only, snapshot x_nil = x_hat, run
exactly ⌊B/b⌋ inner iterations applying the same first-epoch-raw /
later-epochs-corrected rule as SVRG-IHT, and finally set x_hat to
x_nil. -/
def scsg_epoch_from_spec (c : Ctx) (randO : ℕ → ℕ) (B b n : ℕ) (st : AlgoState) :
    AlgoState :=
  let epoch_i := st.num_epochs
  let anchor_block := get_batch B n (randO epoch_i)
  let outer_grad := calc_grad c.x_mat c.y_tr st.x_hat anchor_block
  let q := (fun p : List ℚ × ℕ =>
    let block := get_batch b n (c.rand p.2)
    let raw := calc_grad c.x_mat c.y_tr p.1 block
    let gradient :=
      if epoch_i = 0 then raw
      else vadd (vsub raw (calc_grad c.x_mat c.y_tr st.x_hat block)) outer_grad
    (tailProj c (vsub p.1 (vscale c.lr (headProj c gradient))), p.2 + 1))^[B / b]
    (st.x_hat, st.num_iter)
  { x_hat := q.1, num_epochs := st.num_epochs + 1, num_iter := q.2,
    loss_list := st.loss_list }

section Helpers

/-- Iterating a step that increments a counter by one adds the iteration
count to the counter. -/
lemma iterate_count_add {α : Type} (f : α → α) (g : α → ℕ)
    (h : ∀ s, g (f s) = g s + 1) : ∀ (k : ℕ) (s : α), g (f^[k] s) = g s + k := by
  intro k
  induction k with
  | zero => intro s; simp
  | succ m ih =>
    intro s
    rw [Function.iterate_succ_apply, ih (f s), h s]
    omega

/-- Iterating a step that preserves a component preserves it. -/
lemma iterate_count_const {α β : Type} (f : α → α) (g : α → β)
    (h : ∀ s, g (f s) = g s) : ∀ (k : ℕ) (s : α), g (f^[k] s) = g s := by
  intro k
  induction k with
  | zero => intro s; simp
  | succ m ih =>
    intro s
    rw [Function.iterate_succ_apply, ih (f s), h s]

lemma sto_inner_num_iter (c : Ctx) (B n : ℕ) (st : AlgoState) :
    (sto_inner c B n st).num_iter = st.num_iter + 1 := rfl

lemma sto_epoch_num_epochs (c : Ctx) (B n : ℕ) (st : AlgoState) :
    (sto_epoch c B n st).num_epochs = st.num_epochs + 1 := by
  unfold sto_epoch
  rw [iterate_count_const (sto_inner c B n) AlgoState.num_epochs (fun s => rfl)]

lemma sto_epoch_num_iter (c : Ctx) (B n : ℕ) (st : AlgoState) :
    (sto_epoch c B n st).num_iter = st.num_iter + n / B := by
  unfold sto_epoch
  rw [iterate_count_add (sto_inner c B n) AlgoState.num_iter (fun s => rfl)]

lemma sto_epoch_loss (c : Ctx) (B n : ℕ) (st : AlgoState) :
    (sto_epoch c B n st).loss_list = st.loss_list := by
  unfold sto_epoch
  rw [iterate_count_const (sto_inner c B n) AlgoState.loss_list (fun s => rfl)]

lemma vr_iterate_snd (f : List ℚ × ℕ → List ℚ × ℕ)
    (h : ∀ p, (f p).2 = p.2 + 1) (k : ℕ) (p : List ℚ × ℕ) :
    (f^[k] p).2 = p.2 + k :=
  iterate_count_add f Prod.snd h k p

lemma svrg_epoch_num_epochs (c : Ctx) (b n : ℕ) (st : AlgoState) :
    (svrg_epoch c b n st).num_epochs = st.num_epochs + 1 := rfl

lemma svrg_epoch_num_iter (c : Ctx) (b n : ℕ) (st : AlgoState) :
    (svrg_epoch c b n st).num_iter = st.num_iter + n / b := by
  unfold svrg_epoch
  exact vr_iterate_snd _ (fun p => rfl) (n / b) (st.x_hat, st.num_iter)

lemma svrg_epoch_loss (c : Ctx) (b n : ℕ) (st : AlgoState) :
    (svrg_epoch c b n st).loss_list = st.loss_list := rfl

lemma scsg_epoch_num_epochs (c : Ctx) (randO : ℕ → ℕ) (B b n : ℕ) (st : AlgoState) :
    (scsg_epoch c randO B b n st).num_epochs = st.num_epochs + 1 := rfl

lemma scsg_epoch_num_iter (c : Ctx) (randO : ℕ → ℕ) (B b n : ℕ) (st : AlgoState) :
    (scsg_epoch c randO B b n st).num_iter = st.num_iter + B / b := by
  unfold scsg_epoch
  exact vr_iterate_snd _ (fun p => rfl) (B / b) (st.x_hat, st.num_iter)

lemma scsg_epoch_loss (c : Ctx) (randO : ℕ → ℕ) (B b n : ℕ) (st : AlgoState) :
    (scsg_epoch c randO B b n st).loss_list = st.loss_list := rfl

lemma run_aux_zero (ep : AlgoState → AlgoState) (obs : ℕ → ℕ) (X : List (List ℚ))
    (y : List ℚ) (tol : ℚ) (st : AlgoState) : run_aux ep obs X y tol 0 st = st := rfl

lemma run_aux_succ (ep : AlgoState → AlgoState) (obs : ℕ → ℕ) (X : List (List ℚ))
    (y : List ℚ) (tol : ℚ) (k : ℕ) (st : AlgoState) :
    run_aux ep obs X y tol (k + 1) st =
      if (10 : ℚ) ^ 10 ≤ normSq (ep st).x_hat then ep st
      else if 0 ≤ tol ∧ normSq (vsub y (matVec X (ep st).x_hat)) ≤ tol ^ 2 then ep st
      else run_aux ep obs X y tol k
        { ep st with loss_list := (ep st).loss_list ++
            [(obs (ep st).num_iter, normSq (vsub y (matVec X (ep st).x_hat)))] } := rfl

lemma run_aux_epochs_ge (ep : AlgoState → AlgoState) (obs : ℕ → ℕ) (X : List (List ℚ))
    (y : List ℚ) (tol : ℚ) (he : ∀ s, (ep s).num_epochs = s.num_epochs + 1) :
    ∀ (k : ℕ) (st : AlgoState), st.num_epochs ≤ (run_aux ep obs X y tol k st).num_epochs := by
  intro k
  induction k with
  | zero => intro st; simp [run_aux_zero]
  | succ m ih =>
    intro st
    rw [run_aux_succ]
    split_ifs with h1 h2
    · rw [he]; omega
    · rw [he]; omega
    · set st2 : AlgoState := { ep st with loss_list := (ep st).loss_list ++
        [(obs (ep st).num_iter, normSq (vsub y (matVec X (ep st).x_hat)))] } with hst2
      have h2 : st2.num_epochs = st.num_epochs + 1 := by rw [hst2]; exact he st
      have h := ih st2
      omega

lemma run_aux_epochs_le (ep : AlgoState → AlgoState) (obs : ℕ → ℕ) (X : List (List ℚ))
    (y : List ℚ) (tol : ℚ) (he : ∀ s, (ep s).num_epochs = s.num_epochs + 1) :
    ∀ (k : ℕ) (st : AlgoState),
      (run_aux ep obs X y tol k st).num_epochs ≤ st.num_epochs + k := by
  intro k
  induction k with
  | zero => intro st; simp [run_aux_zero]
  | succ m ih =>
    intro st
    rw [run_aux_succ]
    split_ifs with h1 h2
    · rw [he]; omega
    · rw [he]; omega
    · set st2 : AlgoState := { ep st with loss_list := (ep st).loss_list ++
        [(obs (ep st).num_iter, normSq (vsub y (matVec X (ep st).x_hat)))] } with hst2
      have h2 : st2.num_epochs = st.num_epochs + 1 := by rw [hst2]; exact he st
      have h := ih st2
      omega

lemma run_aux_early_terminal (ep : AlgoState → AlgoState) (obs : ℕ → ℕ)
    (X : List (List ℚ)) (y : List ℚ) (tol : ℚ)
    (he : ∀ s, (ep s).num_epochs = s.num_epochs + 1) :
    ∀ (k : ℕ) (st : AlgoState),
      (run_aux ep obs X y tol k st).num_epochs < st.num_epochs + k →
      terminal X y tol (run_aux ep obs X y tol k st).x_hat := by
  intro k
  induction k with
  | zero => intro st h; rw [run_aux_zero] at h; omega
  | succ m ih =>
    intro st h
    rw [run_aux_succ] at h ⊢
    split_ifs at h ⊢ with h1 h2
    · exact Or.inl h1
    · exact Or.inr h2
    · apply ih
      set st2 : AlgoState := { ep st with loss_list := (ep st).loss_list ++
        [(obs (ep st).num_iter, normSq (vsub y (matVec X (ep st).x_hat)))] } with hst2
      have h2 : st2.num_epochs = st.num_epochs + 1 := by rw [hst2]; exact he st
      omega

lemma run_aux_stop (ep : AlgoState → AlgoState) (obs : ℕ → ℕ) (X : List (List ℚ))
    (y : List ℚ) (tol : ℚ) (k : ℕ) (st : AlgoState)
    (ht : terminal X y tol (ep st).x_hat) :
    run_aux ep obs X y tol (k + 1) st = ep st := by
  rw [run_aux_succ]
  rcases ht with h1 | h2
  · rw [if_pos h1]
  · by_cases h1 : (10 : ℚ) ^ 10 ≤ normSq (ep st).x_hat
    · rw [if_pos h1]
    · rw [if_neg h1, if_pos h2]

lemma run_aux_iter_mul (ep : AlgoState → AlgoState) (obs : ℕ → ℕ) (X : List (List ℚ))
    (y : List ℚ) (tol : ℚ) (K : ℕ)
    (he : ∀ s, (ep s).num_epochs = s.num_epochs + 1)
    (hi : ∀ s, (ep s).num_iter = s.num_iter + K) :
    ∀ (k : ℕ) (st : AlgoState),
      (run_aux ep obs X y tol k st).num_iter =
        st.num_iter + ((run_aux ep obs X y tol k st).num_epochs - st.num_epochs) * K := by
  intro k
  induction k with
  | zero => intro st; simp [run_aux_zero]
  | succ m ih =>
    intro st
    rw [run_aux_succ]
    split_ifs with h1 h2
    · rw [hi, he, Nat.add_sub_cancel_left, one_mul]
    · rw [hi, he, Nat.add_sub_cancel_left, one_mul]
    · set st2 : AlgoState := { ep st with loss_list := (ep st).loss_list ++
        [(obs (ep st).num_iter, normSq (vsub y (matVec X (ep st).x_hat)))] } with hst2
      have hse : st2.num_epochs = st.num_epochs + 1 := by rw [hst2]; exact he st
      have hsi : st2.num_iter = st.num_iter + K := by rw [hst2]; exact hi st
      have hge := run_aux_epochs_ge ep obs X y tol he m st2
      obtain ⟨d, hd⟩ := Nat.exists_eq_add_of_le hge
      have e1 : (run_aux ep obs X y tol m st2).num_epochs - st2.num_epochs = d := by omega
      have e2 : (run_aux ep obs X y tol m st2).num_epochs - st.num_epochs = d + 1 := by
        omega
      rw [ih st2, e1, e2, hsi]
      ring

lemma run_aux_obs_inv (ep : AlgoState → AlgoState) (obs : ℕ → ℕ) (X : List (List ℚ))
    (y : List ℚ) (tol : ℚ) (K : ℕ) (hK : 1 ≤ K)
    (hi : ∀ s, (ep s).num_iter = s.num_iter + K)
    (hl : ∀ s, (ep s).loss_list = s.loss_list)
    (hobs : StrictMono obs) :
    ∀ (k : ℕ) (st : AlgoState),
      List.Pairwise (· < ·) (st.loss_list.map Prod.fst) →
      (∀ e ∈ st.loss_list, ∃ t, t ≤ st.num_iter ∧ e.1 = obs t) →
      List.Pairwise (· < ·) ((run_aux ep obs X y tol k st).loss_list.map Prod.fst) ∧
      (∀ e ∈ (run_aux ep obs X y tol k st).loss_list, ∃ t, e.1 = obs t) := by
  intro k
  induction k with
  | zero =>
    intro st hp hb
    rw [run_aux_zero]
    exact ⟨hp, fun e he => (hb e he).imp (fun t ht => ht.2)⟩
  | succ m ih =>
    intro st hp hb
    rw [run_aux_succ]
    split_ifs with h1 h2
    · rw [hl]
      exact ⟨hp, fun e he => (hb e he).imp (fun t ht => ht.2)⟩
    · rw [hl]
      exact ⟨hp, fun e he => (hb e he).imp (fun t ht => ht.2)⟩
    · set st2 : AlgoState := { ep st with loss_list := (ep st).loss_list ++
        [(obs (ep st).num_iter, normSq (vsub y (matVec X (ep st).x_hat)))] } with hst2
      have hloss2 : st2.loss_list = st.loss_list ++
          [(obs (ep st).num_iter, normSq (vsub y (matVec X (ep st).x_hat)))] := by
        rw [hst2]
        show (ep st).loss_list ++ _ = _
        rw [hl]
      have hiter2 : st2.num_iter = st.num_iter + K := by rw [hst2]; exact hi st
      refine ih st2 ?_ ?_
      · rw [hloss2, List.map_append, List.pairwise_append]
        refine ⟨hp, by simp, ?_⟩
        intro a ha b hbmem
        simp only [List.map_cons, List.map_nil, List.mem_singleton] at hbmem
        obtain ⟨e, hemem, hea⟩ := List.mem_map.mp ha
        obtain ⟨t, htle, hte⟩ := hb e hemem
        subst hbmem
        rw [← hea, hte]
        have hlt : t < (ep st).num_iter := by rw [hi st]; omega
        exact hobs hlt
      · intro e hemem
        rw [hloss2] at hemem
        rcases List.mem_append.mp hemem with hmem | hmem
        · obtain ⟨t, htle, hte⟩ := hb e hmem
          exact ⟨t, by omega, hte⟩
        · simp only [List.mem_singleton] at hmem
          have hiter3 : (ep st).num_iter = st2.num_iter := by rw [hi st]
          exact ⟨(ep st).num_iter, le_of_eq hiter3, by rw [hmem]⟩

lemma sto_inner_fun_eq (c : Ctx) (B n : ℕ) :
    sto_inner c B n = fun s =>
      { s with
        x_hat := tailProj c (vsub s.x_hat (vscale c.lr (headProj c
          (calc_grad c.x_mat c.y_tr s.x_hat (get_batch B n (c.rand s.num_iter)))))),
        num_iter := s.num_iter + 1 } := by
  funext s
  simp only [sto_inner]

lemma vr_inner_fun_eq (c : Ctx) (bsz n e : ℕ) (xh og : List ℚ) :
    vr_inner c bsz n e xh og = fun p =>
      (tailProj c (vsub p.1 (vscale c.lr (headProj c
        (if e = 0 then calc_grad c.x_mat c.y_tr p.1 (get_batch bsz n (c.rand p.2))
         else vadd (vsub (calc_grad c.x_mat c.y_tr p.1 (get_batch bsz n (c.rand p.2)))
           (calc_grad c.x_mat c.y_tr xh (get_batch bsz n (c.rand p.2)))) og)))),
       p.2 + 1) := by
  funext p
  simp only [vr_inner, Nat.lt_one_iff]

lemma getD_map_col (X : List (List ℚ)) (j : ℕ) :
    ∀ i : ℕ, (X.map (fun row => row.getD j 0)).getD i 0 = (X.getD i []).getD j 0 := by
  induction X with
  | nil => intro i; simp
  | cons r tl ih =>
    intro i
    cases i with
    | zero => simp
    | succ m => simpa using ih m

lemma selectCols_transposeMat (X : List (List ℚ)) (block : List ℕ) (p : ℕ)
    (hp : ∀ row ∈ X, row.length = p) (hb : ∀ i ∈ block, i < X.length)
    (hne : block ≠ []) :
    selectCols (transposeMat X) block = transposeMat (selectRows X block) := by
  obtain ⟨i0, rest, rfl⟩ := List.exists_cons_of_ne_nil hne
  have hi0 : i0 < X.length := hb i0 (by simp)
  have hXne : X ≠ [] := by
    intro h
    rw [h] at hi0
    simp at hi0
  have hhead : (X.headD []).length = p := by
    obtain ⟨x0, xt, rfl⟩ := List.exists_cons_of_ne_nil hXne
    exact hp x0 (by simp)
  have hsel : (((i0 :: rest).map (fun i => X.getD i [])).headD []).length = p := by
    simp only [List.map_cons, List.headD_cons]
    have : X.getD i0 [] ∈ X := by
      rw [List.getD_eq_getElem?_getD, List.getElem?_eq_getElem hi0]
      exact List.getElem_mem hi0
    exact hp _ this
  simp only [selectCols, transposeMat, selectRows, List.map_map]
  rw [hhead, hsel]
  apply List.map_congr_left
  intro j hj
  simp only [Function.comp]
  apply List.map_congr_left
  intro i hi
  exact getD_map_col X j i

lemma getD_map_range (f : ℕ → ℚ) (p i : ℕ) (h : i < p) :
    ((List.range p).map f).getD i 0 = f i := by
  rw [List.getD_eq_getElem?_getD, List.getElem?_map, List.getElem?_range h]
  rfl

lemma map_range_getD (x : List ℚ) :
    (List.range x.length).map (fun i => x.getD i 0) = x := by
  induction x with
  | nil => simp
  | cons a t ih =>
    rw [List.length_cons, List.range_succ_eq_map, List.map_cons, List.map_map]
    simp only [List.getD_cons_zero, Function.comp_def, List.getD_cons_succ]
    rw [ih]

lemma range_flatMap_blocks (k : ℕ) :
    ∀ m : ℕ, (List.range m).flatMap (fun i => List.range' (k * i) k) = List.range (k * m) := by
  intro m
  induction m with
  | zero => simp
  | succ j ih =>
    rw [List.range_succ, List.flatMap_append, ih, List.flatMap_singleton,
      List.range_eq_range', List.range_eq_range']
    have := List.range'_append_1 0 (k * j) k
    rw [Nat.zero_add] at this
    rw [this, Nat.mul_succ, Nat.add_comm]

end Helpers

/-- C4: calc_grad returns exactly -2 * (X_Bᵀ·y_B - X_Bᵀ·X_B·x_hat), where
X_B and y_B are the rows of the design matrix and entries of the
measurement vector selected by the block; the function is pure, so equal
inputs give equal outputs. The hypotheses say the design matrix has rows
of uniform length, the block indices address existing rows, and the block
is nonempty (every block the optimizers build has size at least 1). -/
theorem calc_grad_matches_formula (x_mat : List (List ℚ)) (y_tr x_hat : List ℚ)
    (block : List ℕ) (p : ℕ) (hp : ∀ row ∈ x_mat, row.length = p)
    (hb : ∀ i ∈ block, i < x_mat.length) (hne : block ≠ []) :
    calc_grad x_mat y_tr x_hat block =
      vscale (-2) (vsub
        (matVec (transposeMat (selectRows x_mat block)) (selectEntries y_tr block))
        (matVec (matMul (transposeMat (selectRows x_mat block)) (selectRows x_mat block))
          x_hat)) := by
  simp only [calc_grad]
  rw [selectCols_transposeMat x_mat block p hp hb hne]

/-- Witness for C4 at a concrete 2 × 2 design matrix. -/
theorem calc_grad_matches_formula_witness :
    calc_grad [[(1 : ℚ), 2], [3, 4]] [5, 6] [7, 8] [0, 1] =
      vscale (-2) (vsub
        (matVec (transposeMat (selectRows [[(1 : ℚ), 2], [3, 4]] [0, 1]))
          (selectEntries [5, 6] [0, 1]))
        (matVec (matMul (transposeMat (selectRows [[(1 : ℚ), 2], [3, 4]] [0, 1]))
          (selectRows [[(1 : ℚ), 2], [3, 4]] [0, 1])) [7, 8])) :=
  calc_grad_matches_formula [[(1 : ℚ), 2], [3, 4]] [5, 6] [7, 8] [0, 1] 2
    (by decide) (by decide) (by decide)

/-- C3: the projection-oracle wrapper passes the elementwise square of x
as the prize vector, clamps the requested upper sparsity bound s_high to
p - 1 whenever it is at least p - 1, and returns a projected vector of
length p that equals x on the returned support and is zero elsewhere;
consequently projecting a vector onto its own full support returns the
vector unchanged. -/
theorem head_tail_wrapper_prizes_clamp_support (oracle : Oracle)
    (edges : List (ℕ × ℕ)) (x : List ℚ) (costs : List ℚ)
    (g root s_low s_high : ℤ) (max_num_iter verbose : ℕ) :
    (algo_head_tail_bisearch oracle edges x costs g root s_low s_high
        max_num_iter verbose).1 =
      oracle edges (x.map (fun v => v * v)) costs g root s_low
        (if s_high ≥ (x.length : ℤ) - 1 then (x.length : ℤ) - 1 else s_high)
        max_num_iter verbose ∧
    (algo_head_tail_bisearch oracle edges x costs g root s_low s_high
        max_num_iter verbose).2.length = x.length ∧
    (∀ i, i < x.length →
      i ∈ (algo_head_tail_bisearch oracle edges x costs g root s_low s_high
        max_num_iter verbose).1 →
      (algo_head_tail_bisearch oracle edges x costs g root s_low s_high
        max_num_iter verbose).2.getD i 0 = x.getD i 0) ∧
    (∀ i, i < x.length →
      i ∉ (algo_head_tail_bisearch oracle edges x costs g root s_low s_high
        max_num_iter verbose).1 →
      (algo_head_tail_bisearch oracle edges x costs g root s_low s_high
        max_num_iter verbose).2.getD i 0 = 0) ∧
    ((∀ i, i < x.length →
      i ∈ (algo_head_tail_bisearch oracle edges x costs g root s_low s_high
        max_num_iter verbose).1) →
      (algo_head_tail_bisearch oracle edges x costs g root s_low s_high
        max_num_iter verbose).2 = x) := by
  refine ⟨?_, ?_, ?_, ?_, ?_⟩
  · simp only [algo_head_tail_bisearch, List.length_map]
  · simp [algo_head_tail_bisearch]
  · intro i hi hmem
    simp only [algo_head_tail_bisearch, List.length_map] at hmem ⊢
    rw [getD_map_range _ _ _ hi, if_pos hmem]
  · intro i hi hmem
    simp only [algo_head_tail_bisearch, List.length_map] at hmem ⊢
    rw [getD_map_range _ _ _ hi, if_neg hmem]
  · intro hall
    simp only [algo_head_tail_bisearch, List.length_map] at hall ⊢
    have hcong : ∀ i ∈ List.range x.length,
        (if i ∈ oracle edges (x.map (fun v => v * v)) costs g root s_low
            (if s_high ≥ (x.length : ℤ) - 1 then (x.length : ℤ) - 1 else s_high)
            max_num_iter verbose then x.getD i 0 else 0) = x.getD i 0 := by
      intro i hi
      exact if_pos (hall i (List.mem_range.mp hi))
    rw [List.map_congr_left hcong, map_range_getD]

/-- Witness for C3: a concrete oracle selecting node 0 of a length-2
vector; the projected vector keeps entry 0 and zeroes entry 1. -/
theorem head_tail_wrapper_witness :
    (algo_head_tail_bisearch (fun _ _ _ _ _ _ _ _ _ => [0]) [] [(3 : ℚ), 4] []
        1 (-1) 0 5 50 0).2.getD 0 0 = 3 ∧
    (algo_head_tail_bisearch (fun _ _ _ _ _ _ _ _ _ => [0]) [] [(3 : ℚ), 4] []
        1 (-1) 0 5 50 0).2.getD 1 0 = 0 := by
  have h := head_tail_wrapper_prizes_clamp_support (fun _ _ _ _ _ _ _ _ _ => [0])
    [] [(3 : ℚ), 4] [] 1 (-1) 0 5 50 0
  exact ⟨h.2.2.1 0 (by decide) (by decide), h.2.2.2.1 1 (by decide) (by decide)⟩

/-- C7: when the batch size k divides the sample count n, get_batch
always returns one of the n/k contiguous blocks partitioning [0, n); the
drawn block index is the randint outcome itself (distinct draws below n/k
give distinct blocks, so a uniform draw yields a uniform block); and the
n/k blocks exactly tile the range [0, n). Mutation is limited to the
random generator by construction: the embedding models the generator as
the explicit draw stream and get_batch reads nothing else. -/
theorem get_batch_uniform_partition (k n draw : ℕ) (hk : 1 ≤ k) (hn : 1 ≤ n)
    (hdvd : k ∣ n) :
    (∃ i, i < n / k ∧ get_batch k n draw = List.range' (k * i) k) ∧
    (∀ i, i < n / k → get_batch k n i = List.range' (k * i) k) ∧
    (List.range (n / k)).flatMap (fun i => List.range' (k * i) k) = List.range n := by
  have hkn : k ≤ n := Nat.le_of_dvd hn hdvd
  have hpos : 0 < n / k := Nat.div_pos hkn hk
  refine ⟨⟨draw % (n / k), Nat.mod_lt _ hpos, rfl⟩, ?_, ?_⟩
  · intro i hi
    simp only [get_batch]
    rw [Nat.mod_eq_of_lt hi]
  · have h := range_flatMap_blocks k (n / k)
    rw [Nat.mul_div_cancel' hdvd] at h
    exact h

/-- Witness for C7 at k = 2, n = 4, with draw index 1. -/
theorem get_batch_uniform_partition_witness :
    get_batch 2 4 1 = List.range' (2 * 1) 2 ∧
    (List.range (4 / 2)).flatMap (fun i => List.range' (2 * i) 2) = List.range 4 := by
  have h := get_batch_uniform_partition 2 4 1 (by decide) (by decide) (by decide)
  exact ⟨h.2.1 1 (by decide), h.2.2⟩

/-- C10: every index of a sampled block lies inside [0, n) as soon as
1 ≤ batch_size ≤ n, even when batch_size does not divide n (the trailing
partial segment is never selected), so the row and entry accesses
performed by calc_grad over a sampled block stay in bounds. -/
theorem get_batch_indices_in_bounds (k n draw i : ℕ) (hk : 1 ≤ k) (hkn : k ≤ n)
    (hi : i ∈ get_batch k n draw) : i < n := by
  simp only [get_batch] at hi
  rw [List.mem_range'_1] at hi
  obtain ⟨h1, h2⟩ := hi
  have hpos : 0 < n / k := Nat.div_pos hkn hk
  have hidx : draw % (n / k) < n / k := Nat.mod_lt _ hpos
  have hstep : k * (draw % (n / k)) + k ≤ k * (n / k) := by
    have hs : draw % (n / k) + 1 ≤ n / k := Nat.succ_le_of_lt hidx
    calc k * (draw % (n / k)) + k = k * (draw % (n / k) + 1) := by ring
      _ ≤ k * (n / k) := Nat.mul_le_mul_left k hs
  have hfloor : k * (n / k) ≤ n := by
    rw [Nat.mul_comm]
    exact Nat.div_mul_le_self n k
  exact lt_of_lt_of_le h2 (le_trans hstep hfloor)

/-- Witness for C10: index 4 of the block drawn by get_batch 3 7 9 is
below 7. -/
theorem get_batch_indices_in_bounds_witness : 4 < 7 :=
  get_batch_indices_in_bounds 3 7 9 4 (by decide) (by decide) (by decide)

/-- C9: when the caller supplies a block size B larger than the number of
samples n, Sto-IHT and SCSG-IHT silently clamp B to n before any
iteration, so the run coincides with the run invoked with B = n. -/
theorem oversized_block_clamped (oracle : Oracle) (rand randO : ℕ → ℕ)
    (x_mat : List (List ℚ)) (y_tr : List ℚ) (max_epochs : ℕ) (lr : ℚ)
    (x_star x0 : List ℚ) (tol_algo : ℚ) (edges : List (ℕ × ℕ)) (costs : List ℚ)
    (s B b : ℕ) (g root : ℤ) (gamma : ℚ) (proj_max_num_iter verbose : ℕ)
    (h : x_mat.length < B) :
    algo_graph_sto_iht oracle rand x_mat y_tr max_epochs lr x_star x0 tol_algo
        edges costs s B b g root gamma proj_max_num_iter verbose =
      algo_graph_sto_iht oracle rand x_mat y_tr max_epochs lr x_star x0 tol_algo
        edges costs s x_mat.length b g root gamma proj_max_num_iter verbose ∧
    algo_graph_scsg_iht oracle rand randO x_mat y_tr max_epochs lr x_star x0 tol_algo
        edges costs s B b g root gamma proj_max_num_iter verbose =
      algo_graph_scsg_iht oracle rand randO x_mat y_tr max_epochs lr x_star x0 tol_algo
        edges costs s x_mat.length b g root gamma proj_max_num_iter verbose := by
  constructor
  · simp only [algo_graph_sto_iht]
    rw [if_pos h, ite_self]
  · simp only [algo_graph_scsg_iht]
    rw [if_pos h, ite_self]

/-- Witness for C9 at a one-sample problem with B = 5. -/
theorem oversized_block_clamped_witness :
    algo_graph_sto_iht (fun _ _ _ _ _ _ _ _ _ => [0]) (fun _ => 0)
        [[(1 : ℚ)]] [1] 1 1 [1] [0] 0 [] [] 1 5 1 1 (-1) 0 50 0 =
      algo_graph_sto_iht (fun _ _ _ _ _ _ _ _ _ => [0]) (fun _ => 0)
        [[(1 : ℚ)]] [1] 1 1 [1] [0] 0 [] [] 1 1 1 1 (-1) 0 50 0 :=
  (oversized_block_clamped (fun _ _ _ _ _ _ _ _ _ => [0]) (fun _ => 0) (fun _ => 0)
    [[(1 : ℚ)]] [1] 1 1 [1] [0] 0 [] [] 1 5 1 1 (-1) 0 50 0 (by decide)).1

lemma run_epochs_budget (ep : AlgoState → AlgoState) (obs : ℕ → ℕ)
    (X : List (List ℚ)) (y : List ℚ) (tol : ℚ) (x0 : List ℚ) (me : ℕ)
    (he : ∀ s, (ep s).num_epochs = s.num_epochs + 1) :
    (run_aux ep obs X y tol me ⟨x0, 0, 0, []⟩).num_epochs ≤ me := by
  have h := run_aux_epochs_le ep obs X y tol he me ⟨x0, 0, 0, []⟩
  simpa using h

lemma run_early_is_terminal (ep : AlgoState → AlgoState) (obs : ℕ → ℕ)
    (X : List (List ℚ)) (y : List ℚ) (tol : ℚ) (x0 : List ℚ) (me : ℕ)
    (he : ∀ s, (ep s).num_epochs = s.num_epochs + 1) :
    (run_aux ep obs X y tol me ⟨x0, 0, 0, []⟩).num_epochs < me →
    terminal X y tol (run_aux ep obs X y tol me ⟨x0, 0, 0, []⟩).x_hat := by
  intro h
  apply run_aux_early_terminal ep obs X y tol he me ⟨x0, 0, 0, []⟩
  simpa using h

lemma run_iter_is_epochs_mul (ep : AlgoState → AlgoState) (obs : ℕ → ℕ)
    (X : List (List ℚ)) (y : List ℚ) (tol : ℚ) (x0 : List ℚ) (me K : ℕ)
    (he : ∀ s, (ep s).num_epochs = s.num_epochs + 1)
    (hi : ∀ s, (ep s).num_iter = s.num_iter + K) :
    (run_aux ep obs X y tol me ⟨x0, 0, 0, []⟩).num_iter =
      (run_aux ep obs X y tol me ⟨x0, 0, 0, []⟩).num_epochs * K := by
  have h := run_aux_iter_mul ep obs X y tol K he hi me ⟨x0, 0, 0, []⟩
  simpa using h

lemma run_loss_pairwise (ep : AlgoState → AlgoState) (obs : ℕ → ℕ)
    (X : List (List ℚ)) (y : List ℚ) (tol : ℚ) (x0 : List ℚ) (me K : ℕ)
    (hK : 1 ≤ K) (hi : ∀ s, (ep s).num_iter = s.num_iter + K)
    (hl : ∀ s, (ep s).loss_list = s.loss_list) (hobs : StrictMono obs) :
    List.Pairwise (· < ·)
      ((run_aux ep obs X y tol me ⟨x0, 0, 0, []⟩).loss_list.map Prod.fst) ∧
    (∀ e ∈ (run_aux ep obs X y tol me ⟨x0, 0, 0, []⟩).loss_list, ∃ t, e.1 = obs t) :=
  run_aux_obs_inv ep obs X y tol K hK hi hl hobs me ⟨x0, 0, 0, []⟩ (by simp) (by simp)

/-- C6 (amended: divergence fires when the iterate norm reaches or
exceeds 1e5, matching the >= comparison in the source): for every variant
the terminal checks happen only at epoch end; an early exit (fewer epochs
than the budget) can only be caused by one of the two terminal
conditions; and as soon as an epoch ends in a terminal condition the loop
returns that epoch's state, executing no further epoch. -/
theorem epoch_end_terminal_checks (oracle : Oracle) (rand randO : ℕ → ℕ)
    (x_mat : List (List ℚ)) (y_tr : List ℚ) (max_epochs : ℕ) (lr : ℚ)
    (x_star x0 : List ℚ) (tol_algo : ℚ) (edges : List (ℕ × ℕ)) (costs : List ℚ)
    (s B b : ℕ) (g root : ℤ) (gamma : ℚ) (proj_max_num_iter verbose : ℕ) :
    ((algo_graph_sto_iht oracle rand x_mat y_tr max_epochs lr x_star x0 tol_algo
        edges costs s B b g root gamma proj_max_num_iter verbose).num_epochs ≤ max_epochs ∧
      ((algo_graph_sto_iht oracle rand x_mat y_tr max_epochs lr x_star x0 tol_algo
          edges costs s B b g root gamma proj_max_num_iter verbose).num_epochs < max_epochs →
        terminal x_mat y_tr tol_algo
          (algo_graph_sto_iht oracle rand x_mat y_tr max_epochs lr x_star x0 tol_algo
            edges costs s B b g root gamma proj_max_num_iter verbose).x_hat)) ∧
    ((algo_graph_svrg_iht oracle rand x_mat y_tr max_epochs lr x_star x0 tol_algo
        edges costs s B b g root gamma proj_max_num_iter verbose).num_epochs ≤ max_epochs ∧
      ((algo_graph_svrg_iht oracle rand x_mat y_tr max_epochs lr x_star x0 tol_algo
          edges costs s B b g root gamma proj_max_num_iter verbose).num_epochs < max_epochs →
        terminal x_mat y_tr tol_algo
          (algo_graph_svrg_iht oracle rand x_mat y_tr max_epochs lr x_star x0 tol_algo
            edges costs s B b g root gamma proj_max_num_iter verbose).x_hat)) ∧
    ((algo_graph_scsg_iht oracle rand randO x_mat y_tr max_epochs lr x_star x0 tol_algo
        edges costs s B b g root gamma proj_max_num_iter verbose).num_epochs ≤ max_epochs ∧
      ((algo_graph_scsg_iht oracle rand randO x_mat y_tr max_epochs lr x_star x0 tol_algo
          edges costs s B b g root gamma proj_max_num_iter verbose).num_epochs < max_epochs →
        terminal x_mat y_tr tol_algo
          (algo_graph_scsg_iht oracle rand randO x_mat y_tr max_epochs lr x_star x0 tol_algo
            edges costs s B b g root gamma proj_max_num_iter verbose).x_hat)) ∧
    (∀ (ep : AlgoState → AlgoState) (obs : ℕ → ℕ) (k : ℕ) (st : AlgoState),
      terminal x_mat y_tr tol_algo ((ep st).x_hat) →
      run_aux ep obs x_mat y_tr tol_algo (k + 1) st = ep st) := by
  refine ⟨⟨?_, ?_⟩, ⟨?_, ?_⟩, ⟨?_, ?_⟩, ?_⟩
  · simp only [algo_graph_sto_iht]
    exact run_epochs_budget _ _ _ _ _ _ _ (fun st => sto_epoch_num_epochs _ _ _ st)
  · simp only [algo_graph_sto_iht]
    exact run_early_is_terminal _ _ _ _ _ _ _ (fun st => sto_epoch_num_epochs _ _ _ st)
  · simp only [algo_graph_svrg_iht]
    exact run_epochs_budget _ _ _ _ _ _ _ (fun st => svrg_epoch_num_epochs _ _ _ st)
  · simp only [algo_graph_svrg_iht]
    exact run_early_is_terminal _ _ _ _ _ _ _ (fun st => svrg_epoch_num_epochs _ _ _ st)
  · simp only [algo_graph_scsg_iht]
    exact run_epochs_budget _ _ _ _ _ _ _ (fun st => scsg_epoch_num_epochs _ _ _ _ _ st)
  · simp only [algo_graph_scsg_iht]
    exact run_early_is_terminal _ _ _ _ _ _ _ (fun st => scsg_epoch_num_epochs _ _ _ _ _ st)
  · intro ep obs k st ht
    exact run_aux_stop ep obs x_mat y_tr tol_algo k st ht

/-- Counterexample to C6 as stated: a Sto-IHT run on the 1 × 1 design
matrix [[1]], y = [0], x0 = [20000], learning rate -2, tolerance 0 and a
full-support oracle reaches an iterate of norm exactly 1e5 (squared norm
exactly 1e10) after epoch 1; the claimed conditions — residual at or
below tolerance, or norm strictly exceeding 1e5 — both fail there, yet
the loop stops after 1 of the 2 budgeted epochs instead of continuing. -/
theorem boundary_norm_stops_loop :
    (algo_graph_sto_iht (fun _ _ _ _ _ _ _ _ _ => [0]) (fun _ => 0)
      [[(1 : ℚ)]] [0] 2 (-2 : ℚ) [0] [20000] 0 [] [] 1 1 1 1 (-1) 0 50 0).num_epochs = 1 ∧
    (algo_graph_sto_iht (fun _ _ _ _ _ _ _ _ _ => [0]) (fun _ => 0)
      [[(1 : ℚ)]] [0] 2 (-2 : ℚ) [0] [20000] 0 [] [] 1 1 1 1 (-1) 0 50 0).x_hat =
      [100000] ∧
    ¬ ((10 : ℚ) ^ 10 < normSq [(100000 : ℚ)]) ∧
    ¬ (normSq (vsub [0] (matVec [[(1 : ℚ)]] [(100000 : ℚ)])) ≤ (0 : ℚ) ^ 2) := by
  refine ⟨?_, ?_, ?_, ?_⟩
  · norm_num [algo_graph_sto_iht, run_aux, sto_epoch, sto_inner, get_batch, calc_grad,
      headProj, tailProj, algo_head_tail_bisearch, selectCols, selectRows, selectEntries,
      transposeMat, matMul, matVec, dotQ, vsub, vadd, vscale, normSq,
      calc_num_observations, pyInt, List.range_succ, List.range']
  · norm_num [algo_graph_sto_iht, run_aux, sto_epoch, sto_inner, get_batch, calc_grad,
      headProj, tailProj, algo_head_tail_bisearch, selectCols, selectRows, selectEntries,
      transposeMat, matMul, matVec, dotQ, vsub, vadd, vscale, normSq,
      calc_num_observations, pyInt, List.range_succ, List.range']
  · norm_num [normSq]
  · norm_num [normSq, vsub, matVec, dotQ]

/-- Witness for C6: a run that diverges at epoch 1 of 5 satisfies the
terminal predicate, obtained by discharging the early-exit hypothesis of
the theorem at a concrete input. -/
theorem epoch_end_terminal_checks_witness :
    terminal [[(1 : ℚ)]] [0] 0
      (algo_graph_sto_iht (fun _ _ _ _ _ _ _ _ _ => [0]) (fun _ => 0)
        [[(1 : ℚ)]] [0] 5 0 [0] [1000000] 0 [] [] 1 1 1 1 (-1) 0 50 0).x_hat :=
  (epoch_end_terminal_checks (fun _ _ _ _ _ _ _ _ _ => [0]) (fun _ => 0) (fun _ => 0)
    [[(1 : ℚ)]] [0] 5 0 [0] [1000000] 0 [] [] 1 1 1 1 (-1) 0 50 0).1.2
    (by norm_num [algo_graph_sto_iht, run_aux, sto_epoch, sto_inner, get_batch, calc_grad,
      headProj, tailProj, algo_head_tail_bisearch, selectCols, selectRows, selectEntries,
      transposeMat, matMul, matVec, dotQ, vsub, vadd, vscale, normSq,
      calc_num_observations, pyInt, List.range_succ, List.range'])

/-- C1: the SVRG-IHT run is independent of the caller's mini-batch
argument b (the source forces b = 1), every inner draw is a single-sample
block, and one code epoch coincides with the epoch written from the spec:
full-batch outer gradient over all n samples at the snapshot point, then
n single-sample inner iterations using the raw gradient on epoch 0 and
the control-variate corrected gradient afterwards. -/
theorem svrg_forces_single_sample_vr (oracle : Oracle) (rand : ℕ → ℕ)
    (x_mat : List (List ℚ)) (y_tr : List ℚ) (max_epochs : ℕ) (lr : ℚ)
    (x_star x0 : List ℚ) (tol_algo : ℚ) (edges : List (ℕ × ℕ)) (costs : List ℚ)
    (s B b b2 : ℕ) (g root : ℤ) (gamma : ℚ) (proj_max_num_iter verbose : ℕ) :
    algo_graph_svrg_iht oracle rand x_mat y_tr max_epochs lr x_star x0 tol_algo
        edges costs s B b g root gamma proj_max_num_iter verbose =
      algo_graph_svrg_iht oracle rand x_mat y_tr max_epochs lr x_star x0 tol_algo
        edges costs s B b2 g root gamma proj_max_num_iter verbose ∧
    (∀ d, (get_batch 1 x_mat.length d).length = 1) ∧
    (∀ (c : Ctx) (n : ℕ) (st : AlgoState),
      svrg_epoch c 1 n st = svrg_epoch_from_spec c n st) := by
  refine ⟨rfl, ?_, ?_⟩
  · intro d
    simp [get_batch]
  · intro c n st
    simp only [svrg_epoch, svrg_epoch_from_spec, Nat.div_one]
    rw [vr_inner_fun_eq]

/-- Counterexample to C2 as stated: with n = 3 samples and block size
B = 2 the single executed epoch performs num_iter = 1 = ⌊3/2⌋ inner
iterations, not ⌈3/2⌉ = 2 as the claim demands. -/
theorem sto_inner_count_is_floor_not_ceil :
    (algo_graph_sto_iht (fun _ _ _ _ _ _ _ _ _ => [0]) (fun _ => 0)
      [[(1 : ℚ)], [1], [1]] [0, 0, 0] 1 1 [0] [0] (-1) [] [] 1 2 1 1 (-1) 0 50
      0).num_epochs = 1 ∧
    (algo_graph_sto_iht (fun _ _ _ _ _ _ _ _ _ => [0]) (fun _ => 0)
      [[(1 : ℚ)], [1], [1]] [0, 0, 0] 1 1 [0] [0] (-1) [] [] 1 2 1 1 (-1) 0 50
      0).num_iter = 1 ∧
    ((3 + 2 - 1) / 2 : ℕ) = 2 := by
  refine ⟨?_, ?_, by norm_num⟩ <;>
    norm_num [algo_graph_sto_iht, run_aux, sto_epoch, sto_inner, get_batch, calc_grad,
      headProj, tailProj, algo_head_tail_bisearch, selectCols, selectRows, selectEntries,
      transposeMat, matMul, matVec, dotQ, vsub, vadd, vscale, normSq,
      calc_num_observations, pyInt, List.range_succ, List.range']

/-- C2 (amended: each epoch performs ⌊n/B⌋ inner iterations — the source
truncates via integer division — not ⌈n/B⌉): one code epoch coincides
with the epoch written from the spec, each inner iteration draws one
block, takes the block gradient at the current iterate, head-projects,
steps by lr, tail-projects and replaces the iterate; and over a whole run
the cumulative inner-iteration count is exactly num_epochs · ⌊n/B⌋ (with
B clamped to n first). -/
theorem sto_epoch_floor_count_and_update (oracle : Oracle) (rand : ℕ → ℕ)
    (x_mat : List (List ℚ)) (y_tr : List ℚ) (max_epochs : ℕ) (lr : ℚ)
    (x_star x0 : List ℚ) (tol_algo : ℚ) (edges : List (ℕ × ℕ)) (costs : List ℚ)
    (s B b : ℕ) (g root : ℤ) (gamma : ℚ) (proj_max_num_iter verbose : ℕ) :
    (∀ (c : Ctx) (B2 n : ℕ) (st : AlgoState),
      sto_epoch c B2 n st = sto_epoch_from_spec c B2 n st) ∧
    (∀ (c : Ctx) (B2 n : ℕ) (st : AlgoState),
      sto_inner c B2 n st =
        { st with
          x_hat := tailProj c (vsub st.x_hat (vscale c.lr (headProj c
            (calc_grad c.x_mat c.y_tr st.x_hat (get_batch B2 n (c.rand st.num_iter)))))),
          num_iter := st.num_iter + 1 }) ∧
    ((algo_graph_sto_iht oracle rand x_mat y_tr max_epochs lr x_star x0 tol_algo
        edges costs s B b g root gamma proj_max_num_iter verbose).num_iter =
      (algo_graph_sto_iht oracle rand x_mat y_tr max_epochs lr x_star x0 tol_algo
        edges costs s B b g root gamma proj_max_num_iter verbose).num_epochs *
      (x_mat.length / (if x_mat.length < B then x_mat.length else B))) := by
  refine ⟨?_, ?_, ?_⟩
  · intro c B2 n st
    simp only [sto_epoch, sto_epoch_from_spec]
    rw [sto_inner_fun_eq]
  · intro c B2 n st
    rfl
  · simp only [algo_graph_sto_iht]
    exact run_iter_is_epochs_mul _ _ _ _ _ _ _ _
      (fun st => sto_epoch_num_epochs _ _ _ st) (fun st => sto_epoch_num_iter _ _ _ st)

/-- C5: one SCSG-IHT code epoch coincides with the epoch written from the
spec (one drawn block of size B anchors the outer gradient, then exactly
⌊B/b⌋ inner iterations with the first-epoch-raw / later-epochs-corrected
rule, then x_hat := x_nil); the anchor block has size exactly B after the
B > n clamp, B never exceeds n, whenever B < n the anchor block is not
the full dataset, and the cumulative inner-iteration count of a run is
exactly num_epochs · ⌊B/b⌋ — a fixed count per epoch, not randomized. -/
theorem scsg_block_anchor_and_fixed_inner_count (oracle : Oracle)
    (rand randO : ℕ → ℕ) (x_mat : List (List ℚ)) (y_tr : List ℚ) (max_epochs : ℕ)
    (lr : ℚ) (x_star x0 : List ℚ) (tol_algo : ℚ) (edges : List (ℕ × ℕ))
    (costs : List ℚ) (s B b : ℕ) (g root : ℤ) (gamma : ℚ)
    (proj_max_num_iter verbose : ℕ) :
    (∀ (c : Ctx) (rO : ℕ → ℕ) (B2 b2 n : ℕ) (st : AlgoState),
      scsg_epoch c rO B2 b2 n st = scsg_epoch_from_spec c rO B2 b2 n st) ∧
    (∀ d, (get_batch (if x_mat.length < B then x_mat.length else B) x_mat.length
      d).length = (if x_mat.length < B then x_mat.length else B)) ∧
    ((if x_mat.length < B then x_mat.length else B) ≤ x_mat.length) ∧
    ((if x_mat.length < B then x_mat.length else B) < x_mat.length →
      ∀ d, get_batch (if x_mat.length < B then x_mat.length else B) x_mat.length d ≠
        List.range x_mat.length) ∧
    ((algo_graph_scsg_iht oracle rand randO x_mat y_tr max_epochs lr x_star x0
        tol_algo edges costs s B b g root gamma proj_max_num_iter verbose).num_iter =
      (algo_graph_scsg_iht oracle rand randO x_mat y_tr max_epochs lr x_star x0
        tol_algo edges costs s B b g root gamma proj_max_num_iter verbose).num_epochs *
      ((if x_mat.length < B then x_mat.length else B) / b)) := by
  refine ⟨?_, ?_, ?_, ?_, ?_⟩
  · intro c rO B2 b2 n st
    simp only [scsg_epoch, scsg_epoch_from_spec]
    rw [vr_inner_fun_eq]
  · intro d
    simp [get_batch]
  · split_ifs <;> omega
  · intro hlt d heq
    have hlen := congrArg List.length heq
    simp only [get_batch, List.length_range', List.length_range] at hlen
    omega
  · simp only [algo_graph_scsg_iht]
    exact run_iter_is_epochs_mul _ _ _ _ _ _ _ _
      (fun st => scsg_epoch_num_epochs _ _ _ _ _ st)
      (fun st => scsg_epoch_num_iter _ _ _ _ _ st)

/-- Witness for C5 at a 2-sample problem with B = 1 < n = 2: the drawn
anchor block is not the full dataset. -/
theorem scsg_block_anchor_witness :
    get_batch (if List.length [[(1 : ℚ)], [2]] < 1 then List.length [[(1 : ℚ)], [2]]
      else 1) (List.length [[(1 : ℚ)], [2]]) 0 ≠ List.range (List.length [[(1 : ℚ)], [2]]) :=
  (scsg_block_anchor_and_fixed_inner_count (fun _ _ _ _ _ _ _ _ _ => [0]) (fun _ => 0)
    (fun _ => 0) [[(1 : ℚ)], [2]] [0, 0] 1 1 [0] [0] 0 [] [] 1 1 1 1 (-1) 0 50
    0).2.2.2.1 (by decide) 0

/-- C8: for every variant, consecutive entries of the returned loss
record carry strictly increasing num_observations values, and every
recorded value is of the form ⌊B/K⌋ + b·t produced by the observation
counter at some cumulative iteration count t. The hypotheses keep the
per-epoch inner-iteration count positive (for SCSG, b ≤ B and b ≤ n also
rule out the K = 0 case, where the Python source raises
ZeroDivisionError inside calc_num_observations before a second entry
could ever be recorded). -/
theorem loss_record_observations_increase (oracle : Oracle) (rand randO : ℕ → ℕ)
    (x_mat : List (List ℚ)) (y_tr : List ℚ) (max_epochs : ℕ) (lr : ℚ)
    (x_star x0 : List ℚ) (tol_algo : ℚ) (edges : List (ℕ × ℕ)) (costs : List ℚ)
    (s B b : ℕ) (g root : ℤ) (gamma : ℚ) (proj_max_num_iter verbose : ℕ) :
    (1 ≤ B → 1 ≤ x_mat.length →
      List.Pairwise (· < ·)
        ((algo_graph_sto_iht oracle rand x_mat y_tr max_epochs lr x_star x0 tol_algo
          edges costs s B b g root gamma proj_max_num_iter verbose).loss_list.map
          Prod.fst)) ∧
    (1 ≤ x_mat.length →
      List.Pairwise (· < ·)
        ((algo_graph_svrg_iht oracle rand x_mat y_tr max_epochs lr x_star x0 tol_algo
          edges costs s B b g root gamma proj_max_num_iter verbose).loss_list.map
          Prod.fst)) ∧
    (1 ≤ b → b ≤ B → b ≤ x_mat.length →
      List.Pairwise (· < ·)
        ((algo_graph_scsg_iht oracle rand randO x_mat y_tr max_epochs lr x_star x0
          tol_algo edges costs s B b g root gamma proj_max_num_iter verbose).loss_list.map
          Prod.fst)) := by
  refine ⟨?_, ?_, ?_⟩
  · intro hB hn
    have hB1 : 1 ≤ (if x_mat.length < B then x_mat.length else B) := by
      split_ifs <;> omega
    have hBn : (if x_mat.length < B then x_mat.length else B) ≤ x_mat.length := by
      split_ifs <;> omega
    have hK : 1 ≤ x_mat.length / (if x_mat.length < B then x_mat.length else B) :=
      (Nat.one_le_div_iff hB1).mpr hBn
    simp only [algo_graph_sto_iht]
    refine (run_loss_pairwise _ _ _ _ _ _ _
      (x_mat.length / (if x_mat.length < B then x_mat.length else B)) hK
      (fun st => sto_epoch_num_iter _ _ _ st) (fun st => sto_epoch_loss _ _ _ st)
      ?_).1
    intro a a2 hlt
    simp only [calc_num_observations, Nat.zero_div, Nat.zero_add]
    exact mul_lt_mul_of_pos_left hlt hB1
  · intro hn
    have hK : 1 ≤ x_mat.length / 1 := by
      rw [Nat.div_one]; exact hn
    simp only [algo_graph_svrg_iht]
    refine (run_loss_pairwise _ _ _ _ _ _ _ (x_mat.length / 1) hK
      (fun st => svrg_epoch_num_iter _ _ _ st) (fun st => svrg_epoch_loss _ _ _ st)
      ?_).1
    intro a a2 hlt
    simp only [calc_num_observations]
    omega
  · intro hb hbB hbn
    have hbBeff : b ≤ (if x_mat.length < B then x_mat.length else B) := by
      split_ifs <;> omega
    have hK : 1 ≤ (if x_mat.length < B then x_mat.length else B) / b :=
      (Nat.one_le_div_iff hb).mpr hbBeff
    simp only [algo_graph_scsg_iht]
    refine (run_loss_pairwise _ _ _ _ _ _ _
      ((if x_mat.length < B then x_mat.length else B) / b) hK
      (fun st => scsg_epoch_num_iter _ _ _ _ _ st)
      (fun st => scsg_epoch_loss _ _ _ _ _ st) ?_).1
    intro a a2 hlt
    simp only [calc_num_observations]
    have := mul_lt_mul_of_pos_left hlt hb
    omega

/-- Witness for C8: a two-epoch Sto-IHT run whose loss record has
strictly increasing observation counts. -/
theorem loss_record_observations_increase_witness :
    List.Pairwise (· < ·)
      ((algo_graph_sto_iht (fun _ _ _ _ _ _ _ _ _ => [0]) (fun _ => 0)
        [[(1 : ℚ)]] [1] 2 0 [1] [0] (-1) [] [] 1 1 1 1 (-1) 0 50 0).loss_list.map
        Prod.fst) :=
  (loss_record_observations_increase (fun _ _ _ _ _ _ _ _ _ => [0]) (fun _ => 0)
    (fun _ => 0) [[(1 : ℚ)]] [1] 2 0 [1] [0] (-1) [] [] 1 1 1 1 (-1) 0 50 0).1
    (by decide) (by decide)

end TuneParams
